import Mathlib

/-!
Shallow embedding of `src/addr6.rs` from the `macaddr` crate: the `MacAddr6`
EUI-48 address value type, its constructors, classification predicates,
byte conversions, derived lexicographic ordering and canonical `Display`
rendering, together with proofs of the specification's claims about them.

Rust `u8` values are embedded as `Nat` with an explicit `< 256` bound in
the hypotheses of the quantified theorems; no arithmetic here can overflow.
-/

/-- Embeds the Rust struct `MacAddr6([u8; 6])`: a MAC address in EUI-48
format, holding its six octets in transmission order.  The `[u8; 6]` array
is embedded as a `List Nat`; every theorem quantifying over addresses
carries the representation invariants (`length = 6`, each byte `< 256`). -/
structure MacAddr6 where
  bytes : List Nat
deriving DecidableEq, Repr

/-- Embeds `MacAddr6::new(a, b, c, d, e, f)`: `Self([a, b, c, d, e, f])`. -/
def MacAddr6.new (a b c d e f : Nat) : MacAddr6 :=
  ⟨[a, b, c, d, e, f]⟩

/-- Embeds `MacAddr6::is_nil`: `self.0.iter().all(|&b| b == 0)`. -/
def MacAddr6.is_nil (x : MacAddr6) : Bool :=
  x.bytes.all (fun b => b == 0)

/-- Embeds `MacAddr6::is_broadcast`: `self.0.iter().all(|&b| b == 0xFF)`. -/
def MacAddr6.is_broadcast (x : MacAddr6) : Bool :=
  x.bytes.all (fun b => b == 0xFF)

/-- Embeds `MacAddr6::is_unicast`: `self.0[0] & 1 == 0`. -/
def MacAddr6.is_unicast (x : MacAddr6) : Bool :=
  x.bytes.getD 0 0 &&& 1 == 0

/-- Embeds `MacAddr6::is_multicast`: `self.0[0] & 1 == 1`. -/
def MacAddr6.is_multicast (x : MacAddr6) : Bool :=
  x.bytes.getD 0 0 &&& 1 == 1

/-- Embeds `MacAddr6::is_universal`: `self.0[0] & 1 << 1 == 0`
(Rust parses this as `(self.0[0] & (1 << 1)) == 0`). -/
def MacAddr6.is_universal (x : MacAddr6) : Bool :=
  x.bytes.getD 0 0 &&& (1 <<< 1) == 0

/-- Embeds `MacAddr6::is_local`: `self.0[0] & 1 << 1 == 2`
(Rust parses this as `(self.0[0] & (1 << 1)) == 2`). -/
def MacAddr6.is_local (x : MacAddr6) : Bool :=
  x.bytes.getD 0 0 &&& (1 <<< 1) == 2

/-- Embeds `MacAddr6::into_bytes`: returns `self.0`. -/
def MacAddr6.into_bytes (x : MacAddr6) : List Nat :=
  x.bytes

/-- Embeds `impl From<[u8; 6]> for MacAddr6`: `Self(bytes)`.
(`from` is a reserved word in Lean, hence the name `fromBytes`.) -/
def MacAddr6.fromBytes (bytes : List Nat) : MacAddr6 :=
  ⟨bytes⟩

/-- Embeds the derived `Default` instance: `Default` for `[u8; 6]` is the
all-zero array, so the default `MacAddr6` wraps six zero bytes. -/
def MacAddr6.defaultValue : MacAddr6 :=
  ⟨List.replicate 6 0⟩

/-- Embeds the derived `Ord`/`PartialOrd` instance on `[u8; 6]` (hence on
the single-field struct `MacAddr6`): element-wise lexicographic comparison
in sequence order. -/
def cmpBytes : List Nat → List Nat → Ordering
  | [], [] => Ordering.eq
  | [], _ :: _ => Ordering.lt
  | _ :: _, [] => Ordering.gt
  | a :: as, b :: bs =>
    if a < b then Ordering.lt
    else if b < a then Ordering.gt
    else cmpBytes as bs

/-- Embeds the derived strict order `x < y` on `MacAddr6`. -/
def MacAddr6.lt (x y : MacAddr6) : Bool :=
  cmpBytes x.bytes y.bytes == Ordering.lt

/-- Embeds the two-digit uppercase hexadecimal digit table used by Rust's
upper-hex formatting of a nibble value: digits `0`-`9` then `A`-`F`. -/
def hexDigit (n : Nat) : Char :=
  if n < 10 then Char.ofNat (48 + n) else Char.ofNat (55 + n)

/-- Embeds Rust's upper-hex two-digit zero-padded formatting of one `u8`
(the per-byte effect of the format string in the `Display` impl):
high nibble then low nibble, each as an uppercase hex digit. -/
def byteToHex (b : Nat) : String :=
  ⟨[hexDigit (b / 16), hexDigit (b % 16)]⟩

/-- Embeds `impl fmt::Display for MacAddr6`: the canonical form produced by
the format string, i.e. the six bytes rendered as two-digit uppercase hex,
joined by hyphens, in byte order. -/
def MacAddr6.display (x : MacAddr6) : String :=
  byteToHex (x.bytes.getD 0 0) ++ "-" ++
  byteToHex (x.bytes.getD 1 0) ++ "-" ++
  byteToHex (x.bytes.getD 2 0) ++ "-" ++
  byteToHex (x.bytes.getD 3 0) ++ "-" ++
  byteToHex (x.bytes.getD 4 0) ++ "-" ++
  byteToHex (x.bytes.getD 5 0)

/-- Spec-side strict decoder of a single canonical hex digit character:
succeeds only on `0`-`9` and uppercase `A`-`F`, returning its value. -/
def hexVal (c : Char) : Option Nat :=
  if 48 ≤ c.toNat ∧ c.toNat ≤ 57 then some (c.toNat - 48)
  else if 65 ≤ c.toNat ∧ c.toNat ≤ 70 then some (c.toNat - 55)
  else none

/-- Spec-side decoder of one two-digit uppercase hex byte. -/
def decodePair (hi lo : Char) : Option Nat :=
  match hexVal hi, hexVal lo with
  | some h, some l => some (16 * h + l)
  | _, _ => none

/-- Collects six decoded bytes, failing if any single decode failed. -/
def seq6 (o1 o2 o3 o4 o5 o6 : Option Nat) : Option (List Nat) :=
  match o1, o2, o3, o4, o5, o6 with
  | some x1, some x2, some x3, some x4, some x5, some x6 =>
    some [x1, x2, x3, x4, x5, x6]
  | _, _, _, _, _, _ => none

/-- Spec-side strict decoder of the canonical text form
`XX-XX-XX-XX-XX-XX`: succeeds exactly on 17-character strings with hyphens
at positions 2, 5, 8, 11, 14 and two-digit uppercase hex bytes elsewhere,
returning the six byte values in order. -/
def decodeDisplay (s : String) : Option (List Nat) :=
  match s.data with
  | [a1, a2, d1, b1, b2, d2, c1, c2, d3, e1, e2, d4, f1, f2, d5, g1, g2] =>
    if d1 = '-' ∧ d2 = '-' ∧ d3 = '-' ∧ d4 = '-' ∧ d5 = '-' then
      seq6 (decodePair a1 a2) (decodePair b1 b2) (decodePair c1 c2)
        (decodePair e1 e2) (decodePair f1 f2) (decodePair g1 g2)
    else none
  | _ => none

/-- C1: for every 6-byte sequence `s`, building an address from `s` via the
`From` conversion and consuming it with `into_bytes` returns exactly `s`. -/
theorem fromBytes_into_bytes_roundtrip (s : List Nat)
    (hlen : s.length = 6) (hb : ∀ b ∈ s, b < 256) :
    (MacAddr6.fromBytes s).into_bytes = s := rfl

/-- Witness for C1 at a concrete 6-byte sequence. -/
theorem fromBytes_into_bytes_roundtrip_witness :
    (MacAddr6.fromBytes [1, 2, 3, 4, 5, 250]).into_bytes = [1, 2, 3, 4, 5, 250] :=
  fromBytes_into_bytes_roundtrip [1, 2, 3, 4, 5, 250] (by decide) (by decide)

/-- C4: `is_nil` is true exactly when all six bytes are zero; in particular
the all-zero address is nil and any address with a non-zero byte is not. -/
theorem is_nil_iff_all_zero (a b c d e f : Nat)
    (ha : a < 256) (hb : b < 256) (hc : c < 256)
    (hd : d < 256) (he : e < 256) (hf : f < 256) :
    (MacAddr6.new a b c d e f).is_nil = true ↔
      a = 0 ∧ b = 0 ∧ c = 0 ∧ d = 0 ∧ e = 0 ∧ f = 0 := by
  simp [MacAddr6.new, MacAddr6.is_nil]

/-- Witness for C4: the all-zero address is nil. -/
theorem is_nil_iff_all_zero_witness :
    (MacAddr6.new 0 0 0 0 0 0).is_nil = true ↔
      (0 : Nat) = 0 ∧ (0 : Nat) = 0 ∧ (0 : Nat) = 0 ∧
      (0 : Nat) = 0 ∧ (0 : Nat) = 0 ∧ (0 : Nat) = 0 :=
  is_nil_iff_all_zero 0 0 0 0 0 0 (by decide) (by decide) (by decide)
    (by decide) (by decide) (by decide)

/-- C5: `is_broadcast` is true exactly when all six bytes equal `0xFF`;
any other byte pattern yields `false`. -/
theorem is_broadcast_iff_all_ff (a b c d e f : Nat)
    (ha : a < 256) (hb : b < 256) (hc : c < 256)
    (hd : d < 256) (he : e < 256) (hf : f < 256) :
    (MacAddr6.new a b c d e f).is_broadcast = true ↔
      a = 0xFF ∧ b = 0xFF ∧ c = 0xFF ∧ d = 0xFF ∧ e = 0xFF ∧ f = 0xFF := by
  simp [MacAddr6.new, MacAddr6.is_broadcast]

/-- Witness for C5: the all-`0xFF` address is broadcast. -/
theorem is_broadcast_iff_all_ff_witness :
    (MacAddr6.new 0xFF 0xFF 0xFF 0xFF 0xFF 0xFF).is_broadcast = true ↔
      (0xFF : Nat) = 0xFF ∧ (0xFF : Nat) = 0xFF ∧ (0xFF : Nat) = 0xFF ∧
      (0xFF : Nat) = 0xFF ∧ (0xFF : Nat) = 0xFF ∧ (0xFF : Nat) = 0xFF :=
  is_broadcast_iff_all_ff 0xFF 0xFF 0xFF 0xFF 0xFF 0xFF (by decide) (by decide)
    (by decide) (by decide) (by decide) (by decide)

/-- C8: the default value is the all-zero address: it is nil and its raw
bytes are six zeros. -/
theorem default_is_nil_and_zero_bytes :
    MacAddr6.defaultValue.is_nil = true ∧
      MacAddr6.defaultValue.into_bytes = [0, 0, 0, 0, 0, 0] := by
  constructor <;> rfl

/-- C9: the six-octet constructor stores the octets in transmission order:
`new(a,b,c,d,e,f).into_bytes() = [a,b,c,d,e,f]` with no validation. -/
theorem new_into_bytes (a b c d e f : Nat)
    (ha : a < 256) (hb : b < 256) (hc : c < 256)
    (hd : d < 256) (he : e < 256) (hf : f < 256) :
    (MacAddr6.new a b c d e f).into_bytes = [a, b, c, d, e, f] := rfl

/-- Witness for C9 at a concrete input. -/
theorem new_into_bytes_witness :
    (MacAddr6.new 0xAC 0xDE 0x48 0x23 0x45 0x67).into_bytes =
      [0xAC, 0xDE, 0x48, 0x23, 0x45, 0x67] :=
  new_into_bytes 0xAC 0xDE 0x48 0x23 0x45 0x67 (by decide) (by decide)
    (by decide) (by decide) (by decide) (by decide)

/-- C10: at the extremes of the address space, the all-zero (nil) address
is unicast and universal, and the all-`0xFF` (broadcast) address is
multicast and local. -/
theorem extreme_addresses_classification :
    (MacAddr6.new 0 0 0 0 0 0).is_unicast = true ∧
    (MacAddr6.new 0 0 0 0 0 0).is_universal = true ∧
    (MacAddr6.new 0xFF 0xFF 0xFF 0xFF 0xFF 0xFF).is_multicast = true ∧
    (MacAddr6.new 0xFF 0xFF 0xFF 0xFF 0xFF 0xFF).is_local = true := by
  decide

set_option maxRecDepth 4000 in
/-- For every byte value, bitwise AND with 1 yields 0 or 1. -/
theorem byte_and_one_cases : ∀ a : Nat, a < 256 → a &&& 1 = 0 ∨ a &&& 1 = 1 := by
  decide

set_option maxRecDepth 4000 in
/-- For every byte value, bitwise AND with 2 yields 0 or 2. -/
theorem byte_and_two_cases : ∀ a : Nat, a < 256 → a &&& 2 = 0 ∨ a &&& 2 = 2 := by
  decide

/-- C2: on every byte pattern, `is_unicast` and `is_multicast` partition:
exactly one holds (`is_unicast = !is_multicast`), and `is_multicast` is
true exactly when bit 0 of byte 0 is set (`byte0 &&& 1 = 1`). -/
theorem unicast_multicast_partition (a b c d e f : Nat)
    (ha : a < 256) (hb : b < 256) (hc : c < 256)
    (hd : d < 256) (he : e < 256) (hf : f < 256) :
    (MacAddr6.new a b c d e f).is_unicast =
        !(MacAddr6.new a b c d e f).is_multicast ∧
      ((MacAddr6.new a b c d e f).is_multicast = true ↔ a &&& 1 = 1) := by
  rcases byte_and_one_cases a ha with h | h <;>
    simp [MacAddr6.new, MacAddr6.is_unicast, MacAddr6.is_multicast, h]

/-- Witness for C2 at a concrete multicast address. -/
theorem unicast_multicast_partition_witness :
    ((MacAddr6.new 0x01 0x00 0x0C 0xCC 0xCC 0xCC).is_unicast =
        !(MacAddr6.new 0x01 0x00 0x0C 0xCC 0xCC 0xCC).is_multicast ∧
      ((MacAddr6.new 0x01 0x00 0x0C 0xCC 0xCC 0xCC).is_multicast = true ↔
        (0x01 : Nat) &&& 1 = 1)) :=
  unicast_multicast_partition 0x01 0x00 0x0C 0xCC 0xCC 0xCC (by decide)
    (by decide) (by decide) (by decide) (by decide) (by decide)

/-- C3: on every byte pattern, `is_universal` and `is_local` partition:
exactly one holds, `is_universal` is true exactly when bit 1 of byte 0 is
clear (`byte0 &&& 2 = 0`), and `is_local` exactly when `byte0 &&& 2 = 2`. -/
theorem universal_local_partition (a b c d e f : Nat)
    (ha : a < 256) (hb : b < 256) (hc : c < 256)
    (hd : d < 256) (he : e < 256) (hf : f < 256) :
    (MacAddr6.new a b c d e f).is_universal =
        !(MacAddr6.new a b c d e f).is_local ∧
      ((MacAddr6.new a b c d e f).is_universal = true ↔ a &&& 2 = 0) ∧
      ((MacAddr6.new a b c d e f).is_local = true ↔ a &&& 2 = 2) := by
  rcases byte_and_two_cases a ha with h | h <;>
    simp [MacAddr6.new, MacAddr6.is_universal, MacAddr6.is_local, h]

/-- Witness for C3 at a concrete locally administered address. -/
theorem universal_local_partition_witness :
    ((MacAddr6.new 0x02 0x00 0x0C 0xCC 0xCC 0xCC).is_universal =
        !(MacAddr6.new 0x02 0x00 0x0C 0xCC 0xCC 0xCC).is_local ∧
      ((MacAddr6.new 0x02 0x00 0x0C 0xCC 0xCC 0xCC).is_universal = true ↔
        (0x02 : Nat) &&& 2 = 0) ∧
      ((MacAddr6.new 0x02 0x00 0x0C 0xCC 0xCC 0xCC).is_local = true ↔
        (0x02 : Nat) &&& 2 = 2)) :=
  universal_local_partition 0x02 0x00 0x0C 0xCC 0xCC 0xCC (by decide)
    (by decide) (by decide) (by decide) (by decide) (by decide)

/-- Lexicographic comparison of byte lists that agree strictly before index
`i` and differ at index `i` yields `lt` exactly when the bytes at `i` are
ordered by `<`. -/
theorem cmpBytes_lt_iff (i : Nat) : ∀ as bs : List Nat,
    i < as.length → i < bs.length →
    (∀ j, j < i → as.getD j 0 = bs.getD j 0) →
    as.getD i 0 ≠ bs.getD i 0 →
    (cmpBytes as bs = Ordering.lt ↔ as.getD i 0 < bs.getD i 0) := by
  induction i with
  | zero =>
    intro as bs h1 h2 _ hne
    match as, bs with
    | a :: as, b :: bs =>
      simp only [List.getD_cons_zero] at hne ⊢
      by_cases hab : a < b
      · simp [cmpBytes, hab]
      · have hba : b < a := by omega
        simp [cmpBytes, hab, hba]
  | succ i ih =>
    intro as bs h1 h2 hpre hne
    match as, bs with
    | a :: as, b :: bs =>
      have hab : a = b := by
        have := hpre 0 (Nat.succ_pos i)
        simpa using this
      subst hab
      simp only [List.getD_cons_succ] at hne ⊢
      have hstep : cmpBytes (a :: as) (a :: bs) = cmpBytes as bs := by
        simp [cmpBytes]
      rw [hstep]
      refine ih as bs (by simpa using h1) (by simpa using h2) ?_ hne
      intro j hj
      have := hpre (j + 1) (by omega)
      simpa using this

/-- C7: ordering on addresses is lexicographic byte comparison in sequence
order: for addresses differing first at byte index `i`, `x < y` holds
exactly when `x.bytes[i] < y.bytes[i]`; equality is likewise byte-wise. -/
theorem lt_lexicographic (x y : MacAddr6) (i : Nat)
    (hx : x.bytes.length = 6) (hy : y.bytes.length = 6) (hi : i < 6)
    (hpre : ∀ j, j < i → x.bytes.getD j 0 = y.bytes.getD j 0)
    (hne : x.bytes.getD i 0 ≠ y.bytes.getD i 0) :
    (MacAddr6.lt x y = true ↔ x.bytes.getD i 0 < y.bytes.getD i 0) ∧
      (x = y ↔ x.bytes = y.bytes) := by
  constructor
  · have h := cmpBytes_lt_iff i x.bytes y.bytes (hx ▸ hi) (hy ▸ hi) hpre hne
    have hbeq : ∀ o : Ordering, (o == Ordering.lt) = true ↔ o = Ordering.lt := by
      intro o
      cases o <;> simp <;> decide
    rw [MacAddr6.lt, hbeq]
    exact h
  · constructor
    · intro h
      rw [h]
    · intro h
      cases x
      cases y
      simp_all

/-- Witness for C7: two concrete addresses first differing at index 2. -/
theorem lt_lexicographic_witness :
    ((MacAddr6.lt (MacAddr6.new 1 2 3 4 5 6) (MacAddr6.new 1 2 9 4 5 6) = true ↔
        (MacAddr6.new 1 2 3 4 5 6).bytes.getD 2 0 <
          (MacAddr6.new 1 2 9 4 5 6).bytes.getD 2 0) ∧
      (MacAddr6.new 1 2 3 4 5 6 = MacAddr6.new 1 2 9 4 5 6 ↔
        (MacAddr6.new 1 2 3 4 5 6).bytes = (MacAddr6.new 1 2 9 4 5 6).bytes)) :=
  lt_lexicographic (MacAddr6.new 1 2 3 4 5 6) (MacAddr6.new 1 2 9 4 5 6) 2
    rfl rfl (by omega) (by decide) (by decide)

/-- Decoding the uppercase hex digit of a nibble value recovers it. -/
theorem hexVal_hexDigit : ∀ n : Nat, n < 16 → hexVal (hexDigit n) = some n := by
  decide

/-- Decoding the two-digit uppercase hex rendering of a byte recovers it. -/
theorem decodePair_byteToHex (b : Nat) (hb : b < 256) :
    decodePair (hexDigit (b / 16)) (hexDigit (b % 16)) = some b := by
  have h1 : b / 16 < 16 := by omega
  have h2 : b % 16 < 16 := by omega
  simp [decodePair, hexVal_hexDigit _ h1, hexVal_hexDigit _ h2]
  omega

/-- C6: the canonical text rendering is the fixed 17-character string of
two-digit zero-padded uppercase hex bytes joined by hyphens in byte order:
its length is 17, strictly decoding it back recovers the six bytes (which
also certifies the hyphen positions, the zero-padding and the uppercase
digits), and the example address renders as `AC-DE-48-23-45-67`. -/
theorem display_canonical (a b c d e f : Nat)
    (ha : a < 256) (hb : b < 256) (hc : c < 256)
    (hd : d < 256) (he : e < 256) (hf : f < 256) :
    (MacAddr6.new a b c d e f).display.length = 17 ∧
      decodeDisplay (MacAddr6.new a b c d e f).display =
        some [a, b, c, d, e, f] ∧
      (MacAddr6.new 0xAC 0xDE 0x48 0x23 0x45 0x67).display =
        "AC-DE-48-23-45-67" := by
  refine ⟨rfl, ?_, by decide⟩
  show seq6 (decodePair (hexDigit (a / 16)) (hexDigit (a % 16)))
      (decodePair (hexDigit (b / 16)) (hexDigit (b % 16)))
      (decodePair (hexDigit (c / 16)) (hexDigit (c % 16)))
      (decodePair (hexDigit (d / 16)) (hexDigit (d % 16)))
      (decodePair (hexDigit (e / 16)) (hexDigit (e % 16)))
      (decodePair (hexDigit (f / 16)) (hexDigit (f % 16))) =
    some [a, b, c, d, e, f]
  rw [decodePair_byteToHex a ha, decodePair_byteToHex b hb,
    decodePair_byteToHex c hc, decodePair_byteToHex d hd,
    decodePair_byteToHex e he, decodePair_byteToHex f hf]
  rfl

/-- Witness for C6 at the example address. -/
theorem display_canonical_witness :
    (MacAddr6.new 0xAC 0xDE 0x48 0x23 0x45 0x67).display.length = 17 ∧
      decodeDisplay (MacAddr6.new 0xAC 0xDE 0x48 0x23 0x45 0x67).display =
        some [0xAC, 0xDE, 0x48, 0x23, 0x45, 0x67] ∧
      (MacAddr6.new 0xAC 0xDE 0x48 0x23 0x45 0x67).display =
        "AC-DE-48-23-45-67" :=
  display_canonical 0xAC 0xDE 0x48 0x23 0x45 0x67 (by decide) (by decide)
    (by decide) (by decide) (by decide) (by decide)
